import Mathlib

/-!
Verification of the `integers` C++ library (`trapping.h`): a shallow
embedding of its narrowing check (`cast_truncate`), overflow probes
(`add_overflow`, ..., `mod_overflow`), trapping entry points
(`trapping_cast`, ..., `trapping_mod`) and the operator surface of the
`trapping<T>` wrapper class, together with theorems settling the frozen
claims about the library.

A C++ integral type is modelled as a signedness flag plus a bit width;
machine values are `Int`s constrained to the type's range.  The modular
behaviour of `static_cast` between integral types is made explicit.
The fatal termination primitive `trap()` is an external collaborator
(spec section 6) and is modelled as the `none` / `Except.error` outcome:
it never returns, so a trapping execution produces no value.
-/

namespace Integers

instance {ε α : Type} [DecidableEq ε] [DecidableEq α] :
    DecidableEq (Except ε α)
  | .error a, .error b =>
    if h : a = b then .isTrue (by rw [h])
    else .isFalse (fun hc => by cases hc; exact h rfl)
  | .error _, .ok _ => .isFalse (fun hc => by cases hc)
  | .ok _, .error _ => .isFalse (fun hc => by cases hc)
  | .ok a, .ok b =>
    if h : a = b then .isTrue (by rw [h])
    else .isFalse (fun hc => by cases hc; exact h rfl)

/-- A C++ integral type: signedness and bit width (8/16/32/64 for the
standard types; definitions are stated for arbitrary positive width). -/
structure IntTy where
  sgn : Bool
  w : Nat
deriving DecidableEq

/-- `std::numeric_limits<T>::min()`. -/
def tmin (t : IntTy) : Int := if t.sgn then -(2 ^ (t.w - 1)) else 0

/-- `std::numeric_limits<T>::max()`. -/
def tmax (t : IntTy) : Int := if t.sgn then 2 ^ (t.w - 1) - 1 else 2 ^ t.w - 1

/-- `v` is exactly representable in type `t`. -/
def inRange (t : IntTy) (v : Int) : Prop := tmin t ≤ v ∧ v ≤ tmax t

instance (t : IntTy) (v : Int) : Decidable (inRange t v) :=
  inferInstanceAs (Decidable (tmin t ≤ v ∧ v ≤ tmax t))

/-- C++ `static_cast<R>(v)` for integral `R`: reduction modulo `2^w`,
into `[0, 2^w)` for unsigned `R` and into `[-2^(w-1), 2^(w-1))` for
signed `R` (two's complement; well-defined since C++20, and the
behaviour of the library's target compilers before that). -/
def static_cast (r : IntTy) (v : Int) : Int :=
  if r.sgn then (v + 2 ^ (r.w - 1)) % 2 ^ r.w - 2 ^ (r.w - 1)
  else v % 2 ^ r.w

/-- `std::make_unsigned<T>::type`. -/
def make_unsigned (t : IntTy) : IntTy := ⟨false, t.w⟩

/-- The standard fixed-width types. -/
def i8 : IntTy := ⟨true, 8⟩
def i16 : IntTy := ⟨true, 16⟩
def i32 : IntTy := ⟨true, 32⟩
def i64 : IntTy := ⟨true, 64⟩
def u8 : IntTy := ⟨false, 8⟩
def u16 : IntTy := ⟨false, 16⟩
def u32 : IntTy := ⟨false, 32⟩
def u64 : IntTy := ⟨false, 64⟩

/-- `cast_truncate<T, R>(value, &result)` (trapping.h lines 84-177).
`none` models the C++ function returning `true` (truncation: `*result`
is not written); `some r` models returning `false` with `*result = r`.
The `sizeof` comparisons of the source are width comparisons here
(equivalent for the standard types).  All comparisons in the source are
value-preserving under the usual arithmetic conversions (both sides
non-negative, or both sides signed), so they are plain `Int`
comparisons; the `static_cast<U>(value)` to `make_unsigned<T>` in the
signed-to-unsigned branch is the explicit modular cast. -/
def cast_truncate (t r : IntTy) (value : Int) : Option Int :=
  if t.sgn = true ∧ r.sgn = true then
    if t.w = r.w then some (static_cast r value)
    else if t.w > r.w then
      if value > tmax r then none else some (static_cast r value)
    else some (static_cast r value)
  else if t.sgn = false ∧ r.sgn = false then
    if t.w = r.w then some (static_cast r value)
    else if t.w > r.w then
      if value > tmax r then none else some (static_cast r value)
    else some (static_cast r value)
  else if t.sgn = true ∧ r.sgn = false then
    if value < 0 then none
    else if t.w = r.w then some (static_cast r value)
    else if t.w > r.w then
      if static_cast (make_unsigned t) value > tmax r then none
      else some (static_cast r value)
    else some (static_cast r value)
  else
    if value > tmax r then none
    else if t.w = r.w then some (static_cast r value)
    else if t.w > r.w then some (static_cast r value)
    else some (static_cast r value)

/-- `static_cast` is the identity exactly on representable values. -/
theorem static_cast_eq_self (t : IntTy) (hw : 0 < t.w) (v : Int) :
    static_cast t v = v ↔ inRange t v := by
  unfold static_cast inRange tmin tmax
  by_cases hs : t.sgn <;> simp only [hs, if_true, if_false, Bool.false_eq_true]
  · have h2 : (2 : Int) ^ t.w = 2 ^ (t.w - 1) * 2 := by
      rw [← pow_succ]
      congr 1
      omega
    have hK : (0 : Int) < 2 ^ (t.w - 1) := by positivity
    constructor
    · intro h
      have h0 : 0 ≤ (v + 2 ^ (t.w - 1)) % 2 ^ t.w :=
        Int.emod_nonneg _ (by positivity)
      have h1 : (v + 2 ^ (t.w - 1)) % 2 ^ t.w < 2 ^ t.w :=
        Int.emod_lt_of_pos _ (by positivity)
      constructor <;> [linarith; linarith]
    · rintro ⟨hl, hr⟩
      have he : (v + 2 ^ (t.w - 1)) % 2 ^ t.w = v + 2 ^ (t.w - 1) :=
        Int.emod_eq_of_lt (by linarith) (by linarith)
      rw [he]
      ring
  · constructor
    · intro h
      have h0 : 0 ≤ v % 2 ^ t.w := Int.emod_nonneg _ (by positivity)
      have h1 : v % 2 ^ t.w < 2 ^ t.w := Int.emod_lt_of_pos _ (by positivity)
      constructor <;> [linarith; linarith]
    · rintro ⟨hl, hr⟩
      exact Int.emod_eq_of_lt hl (by linarith)

/-- Claim C1 (code bug): `cast_truncate` is claimed to report success iff
the value is exactly representable in `R`, with a round trip on success.
The code misses the lower-bound check when narrowing signed to signed:
`cast_truncate<int16_t, int8_t>(-200, &r)` reports success and writes
`r = 56`, although `-200` is not representable in `int8_t` and the round
trip `56 ≠ -200` fails. -/
theorem cast_truncate_misses_negative_narrowing :
    cast_truncate i16 i8 (-200) = some 56 ∧
      ¬ inRange i8 (-200) ∧ (56 : Int) ≠ -200 := by
  refine ⟨by decide, by decide, by decide⟩

/-- Claim C7 (confirmed): `cast_truncate` implements the spec's per-case
narrowing algorithm: signed→signed with a wider source succeeds iff the
value is at most `R`'s maximum (same or wider target always fits);
signed→unsigned fails if the value is negative, and otherwise fails
exactly when the source is wider and the value's unsigned bit pattern
exceeds `R`'s maximum; unsigned→signed fails iff the value exceeds `R`'s
signed maximum, regardless of width. -/
theorem cast_truncate_cases (t r : IntTy) (value : Int) :
    (t.sgn = true → r.sgn = true →
      ((t.w > r.w → (cast_truncate t r value ≠ none ↔ value ≤ tmax r)) ∧
        (t.w ≤ r.w → cast_truncate t r value ≠ none))) ∧
    (t.sgn = true → r.sgn = false →
      ((value < 0 → cast_truncate t r value = none) ∧
        (0 ≤ value →
          (cast_truncate t r value = none ↔
            t.w > r.w ∧ static_cast (make_unsigned t) value > tmax r)))) ∧
    (t.sgn = false → r.sgn = true →
      (cast_truncate t r value = none ↔ value > tmax r)) := by
  unfold cast_truncate
  refine ⟨fun hts hrs => ?_, fun hts hrs => ?_, fun hts hrs => ?_⟩
  · simp only [hts, hrs, true_and, if_true]
    constructor
    · intro hgt
      have hne : ¬ t.w = r.w := by omega
      simp only [hne, if_false, hgt, if_true]
      constructor
      · intro h
        by_cases hv : value > tmax r
        · simp [hv] at h
        · omega
      · intro hle
        have hv : ¬ value > tmax r := by omega
        simp [hv]
    · intro hle
      by_cases heq : t.w = r.w
      · simp [heq]
      · have hlt : ¬ t.w > r.w := by omega
        simp [heq, hlt]
  · simp only [hts, hrs, Bool.true_eq_false, false_and, and_false, if_false,
      true_and, and_true, if_true]
    constructor
    · intro hneg
      simp [hneg]
    · intro hpos
      have hneg : ¬ value < 0 := by omega
      simp only [hneg, if_false]
      by_cases heq : t.w = r.w
      · have : ¬ t.w > r.w := by omega
        simp [heq, this]
      · by_cases hgt : t.w > r.w
        · simp only [heq, if_false, hgt, if_true, true_and]
          by_cases hu : static_cast (make_unsigned t) value > tmax r
          · simp [hu]
          · simp [hu]
        · simp [heq, hgt]
  · simp only [hts, hrs, Bool.false_eq_true, false_and, and_false, if_false,
      Bool.true_eq_false, and_true, true_and, if_true]
    by_cases hv : value > tmax r
    · simp [hv]
    · simp only [hv, if_false]
      by_cases heq : t.w = r.w
      · simp [heq, hv]
      · by_cases hgt : t.w > r.w <;> simp [heq, hgt, hv]

/-- Witness for C7: the unsigned→signed case at `uint16_t` value `200`
into `int8_t`: the check fails exactly because `200 > 127`. -/
theorem cast_truncate_cases_witness :
    cast_truncate u16 i8 200 = none ↔ (200 : Int) > tmax i8 :=
  (cast_truncate_cases u16 i8 200).2.2 rfl rfl

/-- `add_overflow<T, U, R>(x, y, &result)` (trapping.h lines 187-197).
The body delegates to the compiler intrinsic `__builtin_add_overflow`,
an external primitive; its documented semantics are embedded: the
operands are taken at infinite precision, their exact sum is cast to the
result type and stored, and the function returns true iff the stored
value differs from the exact sum. -/
def add_overflow (r : IntTy) (x y : Int) : Bool × Int :=
  (decide (static_cast r (x + y) ≠ x + y), static_cast r (x + y))

/-- `sub_overflow<T, U, R>(x, y, &result)` (trapping.h lines 204-214),
via `__builtin_sub_overflow`, embedded as for `add_overflow`. -/
def sub_overflow (r : IntTy) (x y : Int) : Bool × Int :=
  (decide (static_cast r (x - y) ≠ x - y), static_cast r (x - y))

/-- `mul_overflow<T, U, R>(x, y, &result)` (trapping.h lines 221-231),
via `__builtin_mul_overflow`, embedded as for `add_overflow`. -/
def mul_overflow (r : IntTy) (x y : Int) : Bool × Int :=
  (decide (static_cast r (x * y) ≠ x * y), static_cast r (x * y))

/-- Claim C6 (confirmed): the `add`/`sub`/`mul` probes report failure iff
the mathematically exact sum, difference or product lies outside
`[R_min, R_max]`, and on success the written result is that exact
value. -/
theorem arith_overflow_iff (r : IntTy) (x y : Int) (hw : 0 < r.w) :
    ((add_overflow r x y).1 = true ↔ ¬ inRange r (x + y)) ∧
      ((add_overflow r x y).1 = false → (add_overflow r x y).2 = x + y) ∧
    ((sub_overflow r x y).1 = true ↔ ¬ inRange r (x - y)) ∧
      ((sub_overflow r x y).1 = false → (sub_overflow r x y).2 = x - y) ∧
    ((mul_overflow r x y).1 = true ↔ ¬ inRange r (x * y)) ∧
      ((mul_overflow r x y).1 = false → (mul_overflow r x y).2 = x * y) := by
  unfold add_overflow sub_overflow mul_overflow
  simp only [decide_eq_true_eq, decide_eq_false_iff_not, not_not]
  exact ⟨not_congr (static_cast_eq_self r hw (x + y)), fun h => h,
    not_congr (static_cast_eq_self r hw (x - y)), fun h => h,
    not_congr (static_cast_eq_self r hw (x * y)), fun h => h⟩

/-- Witness for C6 at `uint8_t`, `x = 200`, `y = 100` (the spec's
concrete overflow scenario: 300 > 255). -/
theorem arith_overflow_iff_witness :
    0 < u8.w ∧
      (((add_overflow u8 200 100).1 = true ↔ ¬ inRange u8 (200 + 100)) ∧
        ((add_overflow u8 200 100).1 = false →
          (add_overflow u8 200 100).2 = 200 + 100) ∧
      ((sub_overflow u8 200 100).1 = true ↔ ¬ inRange u8 (200 - 100)) ∧
        ((sub_overflow u8 200 100).1 = false →
          (sub_overflow u8 200 100).2 = 200 - 100) ∧
      ((mul_overflow u8 200 100).1 = true ↔ ¬ inRange u8 (200 * 100)) ∧
        ((mul_overflow u8 200 100).1 = false →
          (mul_overflow u8 200 100).2 = 200 * 100)) :=
  ⟨by decide, arith_overflow_iff u8 200 100 (by decide)⟩

/-- C++ integer promotion: types narrower than `int` promote to `int`
(32-bit signed; every value of a narrower standard type fits). -/
def promote (t : IntTy) : IntTy := if t.w < 32 then ⟨true, 32⟩ else t

/-- C++ usual arithmetic conversions: the common type of two integral
operands after promotion.  Same signedness: the wider type.  Mixed:
the unsigned type if its rank is at least the signed type's, else the
signed type (which then represents every value of the unsigned one). -/
def commonTy (a b : IntTy) : IntTy :=
  let a := promote a
  let b := promote b
  if a.sgn = b.sgn then ⟨a.sgn, max a.w b.w⟩
  else
    let s := if a.sgn then a else b
    let u := if a.sgn then b else a
    if s.w ≤ u.w then ⟨false, u.w⟩ else s

/-- `divide_min_by_negative_1<T, U>(dividend, divisor)` (trapping.h
lines 29-35): true iff `U` is signed, `dividend` is `T`'s minimum and
`divisor == -1` (the comparison with `-1` is only reached when `U` is
signed, so it is a plain value comparison). -/
def divide_min_by_negative_1 (t u : IntTy) (dividend divisor : Int) : Bool :=
  u.sgn && decide (dividend = tmin t) && decide (divisor = -1)

/-- `div_overflow<T, U, R>(dividend, divisor, &result)` (trapping.h
lines 242-257).  `dividend / divisor` is C++ division: both operands
are converted to the common arithmetic type and divided with truncation
toward zero (`Int.tdiv`); the quotient is then narrowed into `R` by
`cast_truncate`. -/
def div_overflow (t u r : IntTy) (dividend divisor : Int) : Option Int :=
  if divisor = 0 then none
  else if divide_min_by_negative_1 t u dividend divisor then none
  else
    let c := commonTy t u
    cast_truncate c r
      (Int.tdiv (static_cast c dividend) (static_cast c divisor))

/-- `mod_overflow<T, U, R>(dividend, divisor, &result)` (trapping.h
lines 268-283), with `dividend % divisor` the C++ remainder
(`Int.tmod` on the operands converted to the common type). -/
def mod_overflow (t u r : IntTy) (dividend divisor : Int) : Option Int :=
  if divisor = 0 then none
  else if divide_min_by_negative_1 t u dividend divisor then none
  else
    let c := commonTy t u
    cast_truncate c r
      (Int.tmod (static_cast c dividend) (static_cast c divisor))

theorem neg_tmod_eq (a b : Int) : (-a).tmod b = -(a.tmod b) := by
  have h1 := Int.tmod_add_tdiv a b
  have h2 := Int.tmod_add_tdiv (-a) b
  rw [Int.neg_tdiv, mul_neg] at h2
  linarith

theorem natAbs_tmod_lt (a b : Int) (hb : b ≠ 0) :
    (a.tmod b).natAbs < b.natAbs := by
  rcases lt_or_gt_of_ne hb with hneg | hpos
  · have h := Int.tmod_neg a b
    have hpos : 0 < -b := by omega
    rcases le_or_lt 0 a with hpa | hna
    · have h0 : 0 ≤ a.tmod (-b) := Int.tmod_nonneg _ hpa
      have h1 : a.tmod (-b) < -b := Int.tmod_lt_of_pos a hpos
      rw [← h]
      omega
    · have h0 : 0 ≤ (-a).tmod (-b) := Int.tmod_nonneg _ (by omega)
      have h1 : (-a).tmod (-b) < -b := Int.tmod_lt_of_pos (-a) hpos
      have h2 : a.tmod (-b) = -((-a).tmod (-b)) := by
        rw [← neg_tmod_eq, neg_neg]
      rw [← h]
      omega
  · rcases le_or_lt 0 a with hpa | hna
    · have h0 : 0 ≤ a.tmod b := Int.tmod_nonneg _ hpa
      have h1 : a.tmod b < b := Int.tmod_lt_of_pos a hpos
      omega
    · have h0 : 0 ≤ (-a).tmod b := Int.tmod_nonneg _ (by omega)
      have h1 : (-a).tmod b < b := Int.tmod_lt_of_pos (-a) hpos
      have h2 : a.tmod b = -((-a).tmod b) := by
        rw [← neg_tmod_eq, neg_neg]
      omega

/-- When `T = U = R = t`, the quotient and remainder of two in-range
operands are again in range, except in the excluded cases. -/
theorem div_result_inRange (t : IntTy) (hw : 0 < t.w) (a b : Int)
    (ha : inRange t a) (hb : inRange t b) (hb0 : b ≠ 0)
    (hmin : ¬(t.sgn = true ∧ a = tmin t ∧ b = -1)) :
    inRange t (a.tdiv b) ∧ inRange t (a.tmod b) := by
  obtain ⟨ha1, ha2⟩ := ha
  obtain ⟨hb1, hb2⟩ := hb
  have hmodAbs := natAbs_tmod_lt a b hb0
  by_cases hs : t.sgn = true
  · have hmin' : ¬(a = tmin t ∧ b = -1) := fun h => hmin ⟨hs, h.1, h.2⟩
    clear hmin
    simp only [tmin, tmax, hs, if_true, inRange] at *
    generalize hK : (2 : Int) ^ (t.w - 1) = K at *
    have hKpos : 0 < K := by rw [← hK]; positivity
    have hbAbs : (b.natAbs : Int) ≤ K := by omega
    constructor
    · rcases eq_or_ne b 1 with rfl | hb1'
      · rw [Int.tdiv_one]
        omega
      · rcases eq_or_ne b (-1) with rfl | hbm1
        · have hne : a ≠ -K := by
            intro h
            exact hmin' ⟨h, rfl⟩
          have : a.tdiv (-1) = -a := by
            have := Int.tdiv_neg a 1
            rw [Int.tdiv_one] at this
            omega
          rw [this]
          omega
        · have hb2' : 2 ≤ b.natAbs := by omega
          have hdivAbs : (a.tdiv b).natAbs = a.natAbs / b.natAbs :=
            Int.natAbs_tdiv a b
          have hq2 : a.natAbs / b.natAbs ≤ a.natAbs / 2 :=
            Nat.div_le_div_left hb2' (by norm_num)
          have haAbs : (a.natAbs : Int) ≤ K := by omega
          have h2q : 2 * (a.natAbs / 2) ≤ a.natAbs := Nat.mul_div_le _ 2
          omega
    · omega
  · simp only [tmin, tmax, inRange, Bool.not_eq_true] at *
    simp only [hs, if_false, Bool.false_eq_true] at *
    have hbpos : 0 < b := by omega
    have hq0 : 0 ≤ a.tdiv b := Int.tdiv_nonneg ha1 (le_of_lt hbpos)
    have hqle : a.tdiv b ≤ a := by
      rw [Int.tdiv_eq_ediv ha1 (le_of_lt hbpos)]
      exact Int.ediv_le_self b ha1
    have hm0 : 0 ≤ a.tmod b := Int.tmod_nonneg b ha1
    have hm1 : a.tmod b < b := Int.tmod_lt_of_pos a hbpos
    exact ⟨⟨hq0, by omega⟩, ⟨hm0, by omega⟩⟩

theorem commonTy_self (t : IntTy) : commonTy t t = promote t := by
  show (if (promote t).sgn = (promote t).sgn then
      (⟨(promote t).sgn, max (promote t).w (promote t).w⟩ : IntTy)
    else
      let s := if (promote t).sgn then promote t else promote t
      let u := if (promote t).sgn then promote t else promote t
      if s.w ≤ u.w then (⟨false, u.w⟩ : IntTy) else s) = promote t
  rw [if_pos rfl, Nat.max_self]

/-- Values of `t` are representable in the common arithmetic type, and
pass through the conversion unchanged. -/
theorem static_cast_common_self (t : IntTy) (hw : 0 < t.w) (v : Int)
    (hv : inRange t v) : static_cast (commonTy t t) v = v := by
  rw [commonTy_self]
  unfold promote
  by_cases h32 : t.w < 32
  · rw [if_pos h32]
    rw [static_cast_eq_self ⟨true, 32⟩ (by norm_num) v]
    obtain ⟨h1, h2⟩ := hv
    unfold inRange tmin tmax at *
    by_cases hs : t.sgn = true <;>
      simp only [hs, if_true, if_false] at h1 h2 <;> simp only [if_true]
    · have hle : (2 : Int) ^ (t.w - 1) ≤ 2 ^ (32 - 1) := by
        apply pow_le_pow_right₀ (by norm_num)
        omega
      constructor <;> linarith
    · simp only [Bool.not_eq_true] at hs
      simp only [hs, Bool.false_eq_true, if_false] at h1 h2
      have hle : (2 : Int) ^ t.w ≤ 2 ^ (32 - 1) := by
        apply pow_le_pow_right₀ (by norm_num)
        omega
      have hp : (0 : Int) < 2 ^ (32 - 1) := by positivity
      constructor <;> linarith
  · rw [if_neg h32]
    exact (static_cast_eq_self t hw v).2 hv

/-- Narrowing from the common arithmetic type back into `t` succeeds on
every value in `t`'s range. -/
theorem cast_truncate_common_some (t : IntTy) (hw : 0 < t.w) (q : Int)
    (hq : inRange t q) : ∃ z, cast_truncate (commonTy t t) t q = some z := by
  rw [commonTy_self]
  obtain ⟨h1, h2⟩ := hq
  unfold promote cast_truncate
  by_cases h32 : t.w < 32
  · rw [if_pos h32]
    by_cases hs : t.sgn = true
    · simp only [hs, true_and, if_true]
      have hne : ¬ (32 = t.w) := by omega
      have hgt : 32 > t.w := by omega
      have hmax : ¬ q > tmax t := by omega
      simp [hne, hgt, hmax]
    · simp only [Bool.not_eq_true] at hs
      simp only [hs, Bool.true_eq_false, and_false, false_and, and_true,
        true_and, if_false, if_true, Bool.false_eq_true]
      have hq0 : ¬ q < 0 := by
        simp only [tmin, hs, Bool.false_eq_true, if_false] at h1
        omega
      have hne : ¬ (32 = t.w) := by omega
      have hgt : 32 > t.w := by omega
      have hcast : static_cast (make_unsigned ⟨true, 32⟩) q = q := by
        apply (static_cast_eq_self _ (by decide) q).2
        simp only [tmax, tmin, hs, Bool.false_eq_true, if_false] at h2 ⊢
        unfold make_unsigned inRange tmin tmax
        simp only [if_false, Bool.false_eq_true]
        have hle : (2 : Int) ^ t.w ≤ 2 ^ 32 := by
          apply pow_le_pow_right₀ (by norm_num)
          omega
        constructor <;> [omega; nlinarith]
      have hmax : ¬ static_cast (make_unsigned ⟨true, 32⟩) q > tmax t := by
        rw [hcast]
        omega
      simp [hq0, hne, hgt, hmax]
  · rw [if_neg h32]
    by_cases hs : t.sgn = true
    · simp [hs]
    · simp only [Bool.not_eq_true] at hs
      have hq0 : ¬ q < 0 := by
        simp only [tmin, hs, Bool.false_eq_true, if_false] at h1
        omega
      simp [hs, hq0]

/-- Claim C4, counterexample: `div_overflow<int16_t, int16_t, int8_t>`
reports failure at `1000 / 1` although the divisor is neither `0` nor
`-1` with a minimal dividend: the quotient `1000` does not fit the
result type `int8_t`. -/
theorem div_overflow_extra_failure :
    div_overflow i16 i16 i8 1000 1 = none ∧
      ¬((1 : Int) = 0 ∨
        (i16.sgn = true ∧ (1000 : Int) = tmin i16 ∧ (1 : Int) = -1)) := by
  refine ⟨by decide, by decide⟩

/-- Claim C4, amended (corrected): restricted to a single type
`T = U = R` — the setting of the spec's testable property — the `div`
and `mod` probes report failure iff the divisor is `0`, or `T` is
signed, the dividend is `T`'s minimum and the divisor is `-1`.  (For a
result type narrower than the working type the probes also fail when
the quotient or remainder does not fit it, and the minimum/`-1` test
looks at the signedness of the divisor's type, not the dividend's.) -/
theorem div_mod_overflow_iff (t : IntTy) (hw : 0 < t.w) (a b : Int)
    (ha : inRange t a) (hb : inRange t b) :
    (div_overflow t t t a b = none ↔
      b = 0 ∨ (t.sgn = true ∧ a = tmin t ∧ b = -1)) ∧
    (mod_overflow t t t a b = none ↔
      b = 0 ∨ (t.sgn = true ∧ a = tmin t ∧ b = -1)) := by
  unfold div_overflow mod_overflow
  by_cases hb0 : b = 0
  · simp [hb0]
  · have hmb : divide_min_by_negative_1 t t a b = true ↔
        t.sgn = true ∧ a = tmin t ∧ b = -1 := by
      unfold divide_min_by_negative_1
      simp [Bool.and_eq_true, and_assoc]
    by_cases hm : t.sgn = true ∧ a = tmin t ∧ b = -1
    · have hdm : divide_min_by_negative_1 t t a b = true := hmb.2 hm
      constructor <;> rw [if_neg hb0, if_pos hdm] <;> simp [hm, hb0]
    · have hmb' : ¬ divide_min_by_negative_1 t t a b = true := fun h =>
        hm (hmb.1 h)
      simp only [hb0, if_false, hmb', if_neg, hm, or_self_iff, false_or]
      rw [static_cast_common_self t hw a ha,
        static_cast_common_self t hw b hb]
      obtain ⟨hqr, hmr⟩ := div_result_inRange t hw a b ha hb hb0 hm
      obtain ⟨z1, hz1⟩ := cast_truncate_common_some t hw _ hqr
      obtain ⟨z2, hz2⟩ := cast_truncate_common_some t hw _ hmr
      constructor
      · simp [hz1, hz2, hb0, hm]
      · simp [hz2, hb0, hm]

/-- Witness for the amended C4 at the spec's scenario
`INT32_MIN / -1`: both probes report failure. -/
theorem div_mod_overflow_iff_witness :
    0 < i32.w ∧ inRange i32 (-2147483648) ∧ inRange i32 (-1) ∧
      ((div_overflow i32 i32 i32 (-2147483648) (-1) = none ↔
        (-1 : Int) = 0 ∨
          (i32.sgn = true ∧ (-2147483648 : Int) = tmin i32 ∧
            (-1 : Int) = -1)) ∧
      (mod_overflow i32 i32 i32 (-2147483648) (-1) = none ↔
        (-1 : Int) = 0 ∨
          (i32.sgn = true ∧ (-2147483648 : Int) = tmin i32 ∧
            (-1 : Int) = -1))) :=
  ⟨by decide, by decide, by decide,
    div_mod_overflow_iff i32 (by decide) (-2147483648) (-1) (by decide)
      (by decide)⟩

/-- `trapping_cast<T, R>(value)` (trapping.h lines 292-299).  `trap()`
never returns; a trapping execution is the `none` outcome. -/
def trapping_cast (t r : IntTy) (value : Int) : Option Int :=
  match cast_truncate t r value with
  | none => none
  | some result => some result

/-- `trapping_add<T, U, R>(x, y)` (trapping.h lines 305-316). -/
def trapping_add (r : IntTy) (x y : Int) : Option Int :=
  let p := add_overflow r x y
  if p.1 then none else some p.2

/-- `trapping_sub<T, U, R>(x, y)` (trapping.h lines 340-352). -/
def trapping_sub (r : IntTy) (x y : Int) : Option Int :=
  let p := sub_overflow r x y
  if p.1 then none else some p.2

/-- `trapping_mul<T, U, R>(x, y)` (trapping.h lines 322-334). -/
def trapping_mul (r : IntTy) (x y : Int) : Option Int :=
  let p := mul_overflow r x y
  if p.1 then none else some p.2

/-- `trapping_div<T, U, R>(dividend, divisor)` (trapping.h 358-370). -/
def trapping_div (t u r : IntTy) (dividend divisor : Int) : Option Int :=
  match div_overflow t u r dividend divisor with
  | none => none
  | some result => some result

/-- `trapping_mod<T, U, R>(dividend, divisor)` (trapping.h 376-388). -/
def trapping_mod (t u r : IntTy) (dividend divisor : Int) : Option Int :=
  match mod_overflow t u r dividend divisor with
  | none => none
  | some result => some result

/-- Claim C5 (confirmed): every trapping entry point returns exactly the
value computed by its non-trapping probe when the probe reports success,
and invokes the fatal termination primitive (modelled as `none`: `trap`
does not return) on every input for which the probe reports failure. -/
theorem trapping_matches_probe (t u r : IntTy) (v x y a b : Int) :
    (∀ z, cast_truncate t r v = some z → trapping_cast t r v = some z) ∧
    (cast_truncate t r v = none → trapping_cast t r v = none) ∧
    ((add_overflow r x y).1 = false →
      trapping_add r x y = some (add_overflow r x y).2) ∧
    ((add_overflow r x y).1 = true → trapping_add r x y = none) ∧
    ((sub_overflow r x y).1 = false →
      trapping_sub r x y = some (sub_overflow r x y).2) ∧
    ((sub_overflow r x y).1 = true → trapping_sub r x y = none) ∧
    ((mul_overflow r x y).1 = false →
      trapping_mul r x y = some (mul_overflow r x y).2) ∧
    ((mul_overflow r x y).1 = true → trapping_mul r x y = none) ∧
    (∀ z, div_overflow t u r a b = some z →
      trapping_div t u r a b = some z) ∧
    (div_overflow t u r a b = none → trapping_div t u r a b = none) ∧
    (∀ z, mod_overflow t u r a b = some z →
      trapping_mod t u r a b = some z) ∧
    (mod_overflow t u r a b = none → trapping_mod t u r a b = none) := by
  unfold trapping_cast trapping_add trapping_sub trapping_mul trapping_div
    trapping_mod
  refine ⟨fun z hz => by rw [hz], fun hz => by rw [hz],
    fun h => by simp [h], fun h => by simp [h],
    fun h => by simp [h], fun h => by simp [h],
    fun h => by simp [h], fun h => by simp [h],
    fun z hz => by rw [hz], fun hz => by rw [hz],
    fun z hz => by rw [hz], fun hz => by rw [hz]⟩

/-- Witness for C5: `trapping_add<uint8_t>(200, 100)` traps (the probe
reports overflow), and `trapping_cast<int32_t, int8_t>(100)` returns the
value the narrowing probe computed. -/
theorem trapping_matches_probe_witness :
    trapping_add u8 200 100 = none ∧ trapping_cast i32 i8 100 = some 100 :=
  ⟨(trapping_matches_probe i32 i32 u8 100 200 100 0 0).2.2.2.1 (by decide),
    (trapping_matches_probe i32 u8 i8 100 200 100 0 0).1 100 (by decide)⟩

/-! ## The `trapping<T>` wrapper (trapping.h lines 401-835)

`trapping<T>` wraps a single `T value_`; its state is modelled as the
`Int` contained value.  A mutating operator is a function from the
current contained value (and the operand) to `Except Int Int`:
`Except.ok s` is a normal return with `value_` replaced by `s` (for the
operators returning `Self&`, the returned reference aliases the object,
whose value is then `s`), and `Except.error e` models a call to the
never-returning `trap()` at a moment when `value_` still holds `e`.
The embedding mirrors the statement order of each operator body, so the
carried `e` is the value `value_` had when `trap()` fired. -/

namespace trapping

/-- `operator+=` (lines 478-481): `value_ = trapping_add<T, T, T>(value_, x)`. -/
def addAssign (t : IntTy) (value x : Int) : Except Int Int :=
  match trapping_add t value x with
  | none => .error value
  | some v => .ok v

/-- `operator-=` (lines 500-503). -/
def subAssign (t : IntTy) (value x : Int) : Except Int Int :=
  match trapping_sub t value x with
  | none => .error value
  | some v => .ok v

/-- `operator*=` (lines 531-534). -/
def mulAssign (t : IntTy) (value x : Int) : Except Int Int :=
  match trapping_mul t value x with
  | none => .error value
  | some v => .ok v

/-- `operator/=` (lines 549-552). -/
def divAssign (t : IntTy) (value x : Int) : Except Int Int :=
  match trapping_div t t t value x with
  | none => .error value
  | some v => .ok v

/-- `operator%=` (lines 567-570). -/
def modAssign (t : IntTy) (value x : Int) : Except Int Int :=
  match trapping_mod t t t value x with
  | none => .error value
  | some v => .ok v

/-- Unary `operator-` (lines 520-526): traps when `T` is signed at the
minimum value, otherwise stores `-value_` (for unsigned `T` the
negation wraps modulo `2^w`, made explicit by `static_cast`) and
returns `*this`. -/
def opNeg (t : IntTy) (value : Int) : Except Int Int :=
  if t.sgn = true ∧ value = tmin t then .error value
  else .ok (static_cast t (-value))

/-- `operator>>=` (lines 639-645): traps unless the shift amount is in
`[1, bits(T) - 1]`, then stores `value_ >> x` (arithmetic shift: floor
division by `2^x`). -/
def shrAssign (t : IntTy) (value x : Int) : Except Int Int :=
  if x < 1 ∨ x > (t.w : Int) - 1 then .error value
  else .ok (value / 2 ^ x.toNat)

/-- `operator<<=` (lines 661-682): traps unless the shift amount is in
`[1, bits(T) - 1]`; then computes `const T y = x << (CHAR_BIT*sizeof(T)
- x)` — the shift is performed in the promoted type and the assignment
to `T` reduces it modulo `2^w`, hence `static_cast` — traps if
`value_ > y`, and otherwise stores `value_ << x` (again reduced to `T`
by the assignment). -/
def shlAssign (t : IntTy) (value x : Int) : Except Int Int :=
  if x < 1 ∨ x > (t.w : Int) - 1 then .error value
  else
    let y := static_cast t (x * 2 ^ (t.w - x.toNat))
    if value > y then .error value
    else .ok (static_cast t (value * 2 ^ x.toNat))

/-- Prefix `operator++` (lines 774-777): `*this += 1`. -/
def incPre (t : IntTy) (value : Int) : Except Int Int :=
  addAssign t value 1

/-- Postfix `operator++` (lines 783-787): saves `previous`, does
`*this += 1`, returns `previous` (first component) with the object left
at the incremented value (second component). -/
def incPost (t : IntTy) (value : Int) : Except Int (Int × Int) :=
  match addAssign t value 1 with
  | .error e => .error e
  | .ok v => .ok (value, v)

/-- Prefix `operator--` (lines 793-796): `*this -= 1`. -/
def decPre (t : IntTy) (value : Int) : Except Int Int :=
  subAssign t value 1

/-- Postfix `operator--` (lines 802-806). -/
def decPost (t : IntTy) (value : Int) : Except Int (Int × Int) :=
  match subAssign t value 1 with
  | .error e => .error e
  | .ok v => .ok (value, v)

/-- `operator|=` (lines 585-588): `value_ |= x.value_`.  As written the
member access `x.value_` is on the scalar parameter `const T& x` and
does not instantiate; the evident intended reading (the parameter as a
`trapping<T>`, or `x` itself) is embedded: the operand's value. -/
def orAssign (value x : Int) : Int := Int.lor value x

/-- `operator&=` (lines 603-606), same remark as `orAssign`. -/
def andAssign (value x : Int) : Int := Int.land value x

/-- `operator^=` (lines 621-624), same remark as `orAssign`. -/
def xorAssign (value x : Int) : Int := Int.xor value x

/-- Binary `operator|` (lines 594-597): `lhs |= rhs; return lhs` on a
copy of `lhs`. -/
def opOr (lhs rhs : Int) : Int := orAssign lhs rhs

/-- Binary `operator&` (lines 612-615). -/
def opAnd (lhs rhs : Int) : Int := andAssign lhs rhs

/-- Binary `operator^` (lines 630-633): the body is `lhs |= rhs;
return lhs` — it delegates to `|=`, not `^=`. -/
def opXor (lhs rhs : Int) : Int := orAssign lhs rhs

end trapping

/-- Claim C3 (code bug): the binary bitwise operators are claimed to
compute plain OR, AND and XOR of the contained values.  `operator|` and
`operator&` do (under the only reading that compiles, see `orAssign`),
but `operator^`'s body delegates to `|=`, computing OR: at
`a = b = trapping<uint8_t>(1)`, `a ^ b` yields `1` while the bitwise
XOR is `0`. -/
theorem opXor_computes_or :
    trapping.opXor 1 1 = 1 ∧ Int.xor 1 1 = 0 ∧
      trapping.opOr 1 1 = Int.lor 1 1 ∧ trapping.opAnd 1 1 = Int.land 1 1 := by
  refine ⟨by decide, by decide, by decide, by decide⟩

/-- Claim C2 (code bug): left shift is claimed to trap whenever a set
bit would be shifted out of the representable width.  At
`trapping<uint8_t>(128) <<= 1` the shifted value `128 * 2^1` is not
representable in `uint8_t` (the set top bit is lost, the stored result
is `0`), yet the operator does not trap: the guard compares against
`y = x << (w - x) = 128`, and `128 > 128` is false. -/
theorem shlAssign_misses_lost_bit :
    trapping.shlAssign u8 128 1 = .ok 0 ∧ ¬ inRange u8 (128 * 2 ^ 1) ∧
      trapping.shrAssign u8 128 1 = .ok 64 := by
  refine ⟨by decide, by decide, by decide⟩

/-- Whatever an operator step returns, a trapping outcome carries the
contained value unchanged. -/
def preservesOnTrap {α : Type} (s : Int) : Except Int α → Prop
  | .error e => e = s
  | .ok _ => True

/-- Claim C8 (confirmed): every mutating operator of `trapping<T>`
either replaces the contained value with the newly computed checked
value, or traps while the contained value is still exactly the value it
had before the operation — the object is never partially updated. -/
theorem mutating_ops_preserve_on_trap (t : IntTy) (s x : Int) :
    preservesOnTrap s (trapping.addAssign t s x) ∧
    preservesOnTrap s (trapping.subAssign t s x) ∧
    preservesOnTrap s (trapping.mulAssign t s x) ∧
    preservesOnTrap s (trapping.divAssign t s x) ∧
    preservesOnTrap s (trapping.modAssign t s x) ∧
    preservesOnTrap s (trapping.shlAssign t s x) ∧
    preservesOnTrap s (trapping.shrAssign t s x) ∧
    preservesOnTrap s (trapping.opNeg t s) ∧
    preservesOnTrap s (trapping.incPre t s) ∧
    preservesOnTrap s (trapping.incPost t s) ∧
    preservesOnTrap s (trapping.decPre t s) ∧
    preservesOnTrap s (trapping.decPost t s) := by
  unfold trapping.incPost trapping.decPost trapping.incPre trapping.decPre
    trapping.addAssign trapping.subAssign trapping.mulAssign
    trapping.divAssign trapping.modAssign trapping.shlAssign
    trapping.shrAssign trapping.opNeg
  refine ⟨?_, ?_, ?_, ?_, ?_, ?_, ?_, ?_, ?_, ?_, ?_, ?_⟩
  · cases h : trapping_add t s x <;> simp [h, preservesOnTrap]
  · cases h : trapping_sub t s x <;> simp [h, preservesOnTrap]
  · cases h : trapping_mul t s x <;> simp [h, preservesOnTrap]
  · cases h : trapping_div t t t s x <;> simp [h, preservesOnTrap]
  · cases h : trapping_mod t t t s x <;> simp [h, preservesOnTrap]
  · split
    · simp [preservesOnTrap]
    · dsimp only
      split <;> simp [preservesOnTrap]
  · split <;> simp [preservesOnTrap]
  · split <;> simp [preservesOnTrap]
  · cases h : trapping_add t s 1 <;> simp [h, preservesOnTrap]
  · cases h : trapping_add t s 1 <;> simp [h, preservesOnTrap]
  · cases h : trapping_sub t s 1 <;> simp [h, preservesOnTrap]
  · cases h : trapping_sub t s 1 <;> simp [h, preservesOnTrap]

/-- Claim C9 (confirmed): unary negation mutates its operand.  When the
negation does not trap, `operator-` stores the negated value into
`value_` and returns `*this` — a reference to the operand itself — so
after `-v` the object `v` contains the negated value. -/
theorem opNeg_mutates (t : IntTy) (hw : 0 < t.w) (v : Int)
    (h : ¬(t.sgn = true ∧ v = tmin t)) :
    trapping.opNeg t v = .ok (static_cast t (-v)) ∧
      (t.sgn = true → inRange t v → trapping.opNeg t v = .ok (-v)) := by
  constructor
  · unfold trapping.opNeg
    rw [if_neg h]
  · intro hs hv
    unfold trapping.opNeg
    rw [if_neg h]
    have hmin : v ≠ tmin t := fun he => h ⟨hs, he⟩
    obtain ⟨h1, h2⟩ := hv
    have htm : tmax t = -(tmin t) - 1 := by
      unfold tmin tmax
      rw [if_pos hs, if_pos hs]
      ring
    have h1' : tmin t + 1 ≤ v :=
      Int.lt_iff_add_one_le.mp (lt_of_le_of_ne h1 (Ne.symm hmin))
    have : static_cast t (-v) = -v := by
      rw [static_cast_eq_self t hw]
      exact ⟨by linarith, by linarith⟩
    rw [this]

/-- Witness for C9 at `trapping<int8_t>(5)`: after `-v`, the operand
contains `-5`. -/
theorem opNeg_mutates_witness :
    trapping.opNeg i8 5 = .ok (static_cast i8 (-5)) ∧
      (i8.sgn = true → inRange i8 5 → trapping.opNeg i8 5 = .ok (-5)) :=
  opNeg_mutates i8 (by decide) 5 (by decide)

/-- Claim C10 (confirmed): for unsigned `T`, unary negation never traps
and stores the two's-complement (modular) negation
`(2^bits(T) - v) mod 2^bits(T)`. -/
theorem opNeg_unsigned_modular (w : Nat) (v : Int)
    (hv : inRange ⟨false, w⟩ v) :
    trapping.opNeg ⟨false, w⟩ v = .ok ((2 ^ w - v) % 2 ^ w) := by
  unfold trapping.opNeg
  have h : ¬((IntTy.mk false w).sgn = true ∧ v = tmin ⟨false, w⟩) := by
    simp
  rw [if_neg h]
  unfold static_cast
  simp only [Bool.false_eq_true, if_false]
  have : (2 ^ w - v) % 2 ^ w = (-v + 2 ^ w * 1) % 2 ^ w := by ring_nf
  rw [this, Int.add_mul_emod_self_left]

/-- Witness for C10 at `w = 8`: `-trapping<uint8_t>(0)` yields `0` (the
claim's particular case) — and at `v = 5` the result is `251`. -/
theorem opNeg_unsigned_modular_witness :
    (inRange u8 0 ∧ trapping.opNeg u8 0 = .ok ((2 ^ 8 - 0) % 2 ^ 8) ∧
      trapping.opNeg u8 0 = .ok 0) ∧
    (inRange u8 5 ∧ trapping.opNeg u8 5 = .ok 251) :=
  ⟨⟨by decide, opNeg_unsigned_modular 8 0 (by decide), by decide⟩,
    ⟨by decide, by decide⟩⟩

end Integers
